import Mathlib

/-!
Shallow embedding of `python/ray/rllib/agents/agent.py` (the RLlib `Agent`
base class) and proofs about it: config merging and validation, the train
step's synchronization behavior, checkpointing, and action computation.
-/

set_option autoImplicit false

namespace RLlibAgent

/-- A Python config value: a primitive or a nested dict.  `atom` stands for
values the claims never inspect (floats, external objects such as
`MODEL_DEFAULTS`, callback functions), tagged by their source text. -/
inductive CVal where
  | bool (b : Bool)
  | num (n : Nat)
  | str (s : String)
  | nil
  | atom (tag : String)
  | dict (entries : List (String × CVal))
deriving Repr

/-- A Python dict of config options: an ordered association list
(Python 3.7 dicts preserve insertion order). -/
abbrev CDict := List (String × CVal)

/-- `d.get(k)` / `d[k]`: first entry with key `k`. -/
def lookup : CDict → String → Option CVal
  | [], _ => none
  | (k', v') :: rest, k => if k' = k then some v' else lookup rest k

/-- `k in d`. -/
def containsKey : CDict → String → Bool
  | [], _ => false
  | (k', _) :: rest, k => if k' = k then true else containsKey rest k

/-- `d[k] = v`: replace the entry in place if the key exists (keeping its
position), otherwise append it at the end, as Python dict assignment does. -/
def setKey : CDict → String → CVal → CDict
  | [], k, v => [(k, v)]
  | (k', v') :: rest, k, v =>
    if k' = k then (k, v) :: rest else (k', v') :: setKey rest k v

/-- Well-formedness of a value as a Python object: every dict inside it has
pairwise distinct keys (true of every real Python dict). -/
def wfVal : CVal → Bool
  | .bool _ => true
  | .num _ => true
  | .str _ => true
  | .nil => true
  | .atom _ => true
  | .dict [] => true
  | .dict ((k, v) :: rest) =>
    !containsKey rest k && wfVal v && wfVal (.dict rest)

/-- A well-formed dict: distinct keys, recursively. -/
def wfDict (d : CDict) : Bool := wfVal (.dict d)

/-- Modelled from the spec: `deep_update` from `ray.rllib.utils` (imported by
agent.py but not part of the given sources).  It merges `new_dict` into
`original` recursively: an unknown key errors unless `new_keys_allowed`;
when the original value under a key is a dict the merge recurses, allowing
new sub-keys everywhere below a key listed in `whitelist`; otherwise the new
value replaces the original one.  Recursing into a non-dict new value is a
Python type error, modelled as `Except.error`. -/
def deep_update : CDict → CDict → Bool → List String → Except String CDict
  | original, [], _, _ => .ok original
  | original, (k, v) :: rest, new_keys_allowed, whitelist =>
    if !containsKey original k && !new_keys_allowed then
      .error ("Unknown config parameter `" ++ k ++ "` ")
    else
      match lookup original k with
      | some (.dict od) =>
        match v with
        | .dict nd =>
          match deep_update od nd
              (if k ∈ whitelist then true else new_keys_allowed) [] with
          | .ok od' =>
            deep_update (setKey original k (.dict od')) rest
              new_keys_allowed whitelist
          | .error e => .error e
        | _ => .error "AttributeError: object has no attribute items"
      | _ =>
        deep_update (setKey original k v) rest new_keys_allowed whitelist
termination_by _ nd _ _ => sizeOf nd
decreasing_by
  all_goals simp_wf
  all_goals omega

/-- `copy.deepcopy` on a config value: a structurally fresh copy. -/
def deepcopyV : CVal → CVal
  | .bool b => .bool b
  | .num n => .num n
  | .str s => .str s
  | .nil => .nil
  | .atom t => .atom t
  | .dict [] => .dict []
  | .dict ((k, v) :: rest) =>
    match deepcopyV (.dict rest) with
    | .dict rest' => .dict ((k, deepcopyV v) :: rest')
    | _ => .dict [(k, deepcopyV v)]

/-- `copy.deepcopy` on a dict. -/
def deepcopyD (d : CDict) : CDict :=
  match deepcopyV (.dict d) with
  | .dict d' => d'
  | _ => d

/-- Python `dict.update`: shallow, each key of `extra` is assigned into `d`
wholesale. -/
def dictUpdate (d extra : CDict) : CDict :=
  extra.foldl (fun acc kv => setKey acc kv.1 kv.2) d

theorem deepcopyV_eq (v : CVal) : deepcopyV v = v := by
  match v with
  | .bool b => simp [deepcopyV]
  | .num n => simp [deepcopyV]
  | .str s => simp [deepcopyV]
  | .nil => simp [deepcopyV]
  | .atom t => simp [deepcopyV]
  | .dict [] => simp [deepcopyV]
  | .dict ((k, w) :: rest) =>
    have h1 := deepcopyV_eq w
    have h2 := deepcopyV_eq (.dict rest)
    rw [deepcopyV, h1, h2]
termination_by sizeOf v
decreasing_by
  all_goals simp_wf
  all_goals omega

theorem deepcopyD_eq (d : CDict) : deepcopyD d = d := by
  unfold deepcopyD
  rw [deepcopyV_eq]

/-! ### Association-list lemmas -/

theorem lookup_setKey (d : CDict) (k j : String) (v : CVal) :
    lookup (setKey d k v) j = if k = j then some v else lookup d j := by
  induction d with
  | nil => simp [setKey, lookup]
  | cons kv rest ih =>
    obtain ⟨k', v'⟩ := kv
    by_cases h : k' = k
    · subst h
      by_cases hj : k' = j <;> simp [setKey, lookup, hj]
    · by_cases hj : k' = j
      · subst hj
        have hk : ¬ k = k' := fun hkk => h hkk.symm
        simp [setKey, lookup, h, hk]
      · simp [setKey, lookup, h, hj, ih]

theorem setKey_lookup_self (d : CDict) (k : String) (v : CVal)
    (h : lookup d k = some v) : setKey d k v = d := by
  induction d with
  | nil => simp [lookup] at h
  | cons kv rest ih =>
    obtain ⟨k', v'⟩ := kv
    by_cases hk : k' = k
    · subst hk
      simp [lookup] at h
      simp [setKey, h]
    · simp [lookup, hk] at h
      simp [setKey, hk, ih h]

theorem containsKey_setKey (d : CDict) (k j : String) (v : CVal) :
    containsKey (setKey d k v) j = (if k = j then true else containsKey d j) := by
  induction d with
  | nil => simp [setKey, containsKey]
  | cons kv rest ih =>
    obtain ⟨k', v'⟩ := kv
    by_cases h : k' = k
    · subst h
      by_cases hj : k' = j <;> simp [setKey, containsKey, hj]
    · by_cases hj : k' = j
      · subst hj
        have hk : ¬ k = k' := fun hkk => h hkk.symm
        simp [setKey, containsKey, h, hk]
      · simp [setKey, containsKey, h, hj, ih]

theorem containsKey_of_lookup (d : CDict) (k : String) (v : CVal)
    (h : lookup d k = some v) : containsKey d k = true := by
  induction d with
  | nil => simp [lookup] at h
  | cons kv rest ih =>
    obtain ⟨k', v'⟩ := kv
    by_cases hk : k' = k
    · simp [containsKey, hk]
    · simp [lookup, hk] at h
      simp [containsKey, hk, ih h]

theorem lookup_of_not_containsKey (d : CDict) (k : String)
    (h : containsKey d k = false) : lookup d k = none := by
  induction d with
  | nil => simp [lookup]
  | cons kv rest ih =>
    obtain ⟨k', v'⟩ := kv
    by_cases hk : k' = k
    · simp [containsKey, hk] at h
    · simp [containsKey, hk] at h
      simp [lookup, hk, ih h]

theorem containsKey_eq_false_of_lookup_none (d : CDict) (k : String)
    (h : lookup d k = none) : containsKey d k = false := by
  induction d with
  | nil => simp [containsKey]
  | cons kv rest ih =>
    obtain ⟨k', v'⟩ := kv
    by_cases hk : k' = k
    · simp [lookup, hk] at h
    · simp [lookup, hk] at h
      simp [containsKey, hk, ih h]

theorem containsKey_of_mem (d : CDict) (k : String) (v : CVal)
    (h : (k, v) ∈ d) : containsKey d k = true := by
  induction d with
  | nil => simp at h
  | cons kv rest ih =>
    obtain ⟨k', v'⟩ := kv
    rcases List.mem_cons.mp h with h1 | h1
    · cases h1
      simp [containsKey]
    · by_cases hk : k' = k <;> simp [containsKey, hk, ih h1]

theorem wfDict_cons (k : String) (v : CVal) (rest : CDict) :
    wfDict ((k, v) :: rest)
      = (!containsKey rest k && wfVal v && wfDict rest) := by
  simp [wfDict, wfVal]

theorem wf_lookup_mem (d : CDict) (h : wfDict d = true) (k : String) (v : CVal)
    (hm : (k, v) ∈ d) : lookup d k = some v := by
  induction d with
  | nil => simp at hm
  | cons kv rest ih =>
    obtain ⟨k', v'⟩ := kv
    rw [wfDict_cons] at h
    simp only [Bool.and_eq_true, Bool.not_eq_true'] at h
    obtain ⟨⟨hnc, _⟩, hrest⟩ := h
    rcases List.mem_cons.mp hm with h1 | h1
    · cases h1
      simp [lookup]
    · by_cases hk : k' = k
      · subst hk
        rw [containsKey_of_mem rest k' v h1] at hnc
        cases hnc
      · simp [lookup, hk, ih hrest h1]

theorem wf_lookup (d : CDict) (h : wfDict d = true) (k : String) (v : CVal)
    (hl : lookup d k = some v) : wfVal v = true := by
  induction d with
  | nil => simp [lookup] at hl
  | cons kv rest ih =>
    obtain ⟨k', v'⟩ := kv
    rw [wfDict_cons] at h
    simp only [Bool.and_eq_true, Bool.not_eq_true'] at h
    obtain ⟨⟨_, hv⟩, hrest⟩ := h
    by_cases hk : k' = k
    · simp [lookup, hk] at hl
      exact hl ▸ hv
    · simp [lookup, hk] at hl
      exact ih hrest hl

theorem wf_setKey (d : CDict) (k : String) (v : CVal)
    (hd : wfDict d = true) (hv : wfVal v = true) :
    wfDict (setKey d k v) = true := by
  induction d with
  | nil => simp [setKey, wfDict, wfVal, containsKey, hv]
  | cons kv rest ih =>
    obtain ⟨k', v'⟩ := kv
    rw [wfDict_cons] at hd
    simp only [Bool.and_eq_true, Bool.not_eq_true'] at hd
    obtain ⟨⟨hnc, hv'⟩, hrest⟩ := hd
    by_cases hk : k' = k
    · subst hk
      simp [setKey, wfDict_cons, hnc, hv, hrest]
    · rw [setKey]
      simp only [if_neg hk]
      rw [wfDict_cons]
      have : containsKey (setKey rest k v) k' = false := by
        rw [containsKey_setKey]
        have hk2 : ¬ k = k' := fun hkk => hk hkk.symm
        simp [hk2, hnc]
      simp [this, hv', ih hrest]

theorem wf_mem_val (d : CDict) (h : wfDict d = true) (k : String) (v : CVal)
    (hm : (k, v) ∈ d) : wfVal v = true :=
  wf_lookup d h k v (wf_lookup_mem d h k v hm)

/-! ### Self-merge: `deep_update d d` is the identity on well-formed dicts -/

/-- A value that is not a Python dict. -/
def notDict : CVal → Bool
  | .dict _ => false
  | _ => true

/-! ### One-step unfolding lemmas for `deep_update` -/

theorem du_step_nil (original : CDict) (b : Bool) (wl : List String) :
    deep_update original [] b wl = .ok original := by
  rw [deep_update]

theorem du_step_err (original : CDict) (k : String) (v : CVal) (rest : CDict)
    (wl : List String) (hck : containsKey original k = false) :
    deep_update original ((k, v) :: rest) false wl
      = .error ("Unknown config parameter `" ++ k ++ "` ") := by
  rw [deep_update, hck]
  simp

theorem du_step_dictdict (original : CDict) (k : String) (od nd : CDict)
    (rest : CDict) (b : Bool) (wl : List String)
    (hlk : lookup original k = some (.dict od)) :
    deep_update original ((k, .dict nd) :: rest) b wl
      = match deep_update od nd (if k ∈ wl then true else b) [] with
        | .ok od' => deep_update (setKey original k (.dict od')) rest b wl
        | .error e => .error e := by
  have hck : containsKey original k = true := containsKey_of_lookup _ _ _ hlk
  rw [deep_update, hck, hlk]
  simp

theorem du_step_dictdict_ok (original : CDict) (k : String) (od nd od' : CDict)
    (rest : CDict) (b : Bool) (wl : List String)
    (hlk : lookup original k = some (.dict od))
    (hin : deep_update od nd (if k ∈ wl then true else b) [] = .ok od') :
    deep_update original ((k, .dict nd) :: rest) b wl
      = deep_update (setKey original k (.dict od')) rest b wl := by
  rw [du_step_dictdict original k od nd rest b wl hlk, hin]

theorem du_step_dictdict_err (original : CDict) (k : String) (od nd : CDict)
    (rest : CDict) (b : Bool) (wl : List String) (e : String)
    (hlk : lookup original k = some (.dict od))
    (hin : deep_update od nd (if k ∈ wl then true else b) [] = .error e) :
    deep_update original ((k, .dict nd) :: rest) b wl = .error e := by
  rw [du_step_dictdict original k od nd rest b wl hlk, hin]

theorem du_step_dict_nondict (original : CDict) (k : String) (od : CDict)
    (v : CVal) (rest : CDict) (b : Bool) (wl : List String)
    (hlk : lookup original k = some (.dict od)) (hv : notDict v = true) :
    deep_update original ((k, v) :: rest) b wl
      = .error "AttributeError: object has no attribute items" := by
  have hck : containsKey original k = true := containsKey_of_lookup _ _ _ hlk
  rw [deep_update, hck, hlk]
  cases v <;> simp_all [notDict]

theorem du_step_set_none (original : CDict) (k : String) (v : CVal)
    (rest : CDict) (b : Bool) (wl : List String)
    (hg : (!containsKey original k && !b) = false)
    (hlk : lookup original k = none) :
    deep_update original ((k, v) :: rest) b wl
      = deep_update (setKey original k v) rest b wl := by
  rw [deep_update, hg, hlk]
  simp

theorem du_step_set_nondict (original : CDict) (k : String) (w v : CVal)
    (rest : CDict) (b : Bool) (wl : List String)
    (hlk : lookup original k = some w) (hw : notDict w = true) :
    deep_update original ((k, v) :: rest) b wl
      = deep_update (setKey original k v) rest b wl := by
  have hck : containsKey original k = true := containsKey_of_lookup _ _ _ hlk
  rw [deep_update, hck, hlk]
  cases w <;> simp_all [notDict]

/-! ### Self-merge: `deep_update m m` is the identity on well-formed dicts -/

theorem du_self_aux (m₂ original : CDict) (b : Bool) (wl : List String)
    (h1 : ∀ kv ∈ m₂, lookup original kv.1 = some kv.2)
    (h2 : ∀ kv ∈ m₂, wfVal kv.2 = true) :
    deep_update original m₂ b wl = .ok original := by
  match m₂ with
  | [] => exact du_step_nil original b wl
  | (k, CVal.dict od) :: rest =>
    have hlk : lookup original k = some (.dict od) :=
      h1 (k, .dict od) (List.mem_cons_self _ _)
    have hwf : wfDict od = true := h2 (k, .dict od) (List.mem_cons_self _ _)
    have hset : setKey original k (.dict od) = original :=
      setKey_lookup_self _ _ _ hlk
    have hrest : deep_update original rest b wl = .ok original :=
      du_self_aux rest original b wl
        (fun kv hm => h1 kv (List.mem_cons_of_mem _ hm))
        (fun kv hm => h2 kv (List.mem_cons_of_mem _ hm))
    have hinner : deep_update od od (if k ∈ wl then true else b) [] = .ok od :=
      du_self_aux od od _ []
        (fun kv hm => wf_lookup_mem od hwf kv.1 kv.2 hm)
        (fun kv hm => wf_mem_val od hwf kv.1 kv.2 hm)
    rw [du_step_dictdict original k od od rest b wl hlk, hinner]
    simpa [hset] using hrest
  | (k, CVal.bool bb) :: rest =>
    have hlk := h1 (k, .bool bb) (List.mem_cons_self _ _)
    rw [du_step_set_nondict original k (.bool bb) (.bool bb) rest b wl hlk rfl,
      setKey_lookup_self _ _ _ hlk]
    exact du_self_aux rest original b wl
      (fun kv hm => h1 kv (List.mem_cons_of_mem _ hm))
      (fun kv hm => h2 kv (List.mem_cons_of_mem _ hm))
  | (k, CVal.num n) :: rest =>
    have hlk := h1 (k, .num n) (List.mem_cons_self _ _)
    rw [du_step_set_nondict original k (.num n) (.num n) rest b wl hlk rfl,
      setKey_lookup_self _ _ _ hlk]
    exact du_self_aux rest original b wl
      (fun kv hm => h1 kv (List.mem_cons_of_mem _ hm))
      (fun kv hm => h2 kv (List.mem_cons_of_mem _ hm))
  | (k, CVal.str s) :: rest =>
    have hlk := h1 (k, .str s) (List.mem_cons_self _ _)
    rw [du_step_set_nondict original k (.str s) (.str s) rest b wl hlk rfl,
      setKey_lookup_self _ _ _ hlk]
    exact du_self_aux rest original b wl
      (fun kv hm => h1 kv (List.mem_cons_of_mem _ hm))
      (fun kv hm => h2 kv (List.mem_cons_of_mem _ hm))
  | (k, CVal.nil) :: rest =>
    have hlk := h1 (k, .nil) (List.mem_cons_self _ _)
    rw [du_step_set_nondict original k .nil .nil rest b wl hlk rfl,
      setKey_lookup_self _ _ _ hlk]
    exact du_self_aux rest original b wl
      (fun kv hm => h1 kv (List.mem_cons_of_mem _ hm))
      (fun kv hm => h2 kv (List.mem_cons_of_mem _ hm))
  | (k, CVal.atom t) :: rest =>
    have hlk := h1 (k, .atom t) (List.mem_cons_self _ _)
    rw [du_step_set_nondict original k (.atom t) (.atom t) rest b wl hlk rfl,
      setKey_lookup_self _ _ _ hlk]
    exact du_self_aux rest original b wl
      (fun kv hm => h1 kv (List.mem_cons_of_mem _ hm))
      (fun kv hm => h2 kv (List.mem_cons_of_mem _ hm))
termination_by sizeOf m₂
decreasing_by
  all_goals simp_wf
  all_goals omega

/-- Merging a well-formed dict into itself is the identity, whatever the
unknown-key policy and whitelist. -/
theorem du_self (m : CDict) (b : Bool) (wl : List String)
    (h : wfDict m = true) : deep_update m m b wl = .ok m :=
  du_self_aux m m b wl
    (fun kv hm => wf_lookup_mem m h kv.1 kv.2 hm)
    (fun kv hm => wf_mem_val m h kv.1 kv.2 hm)

/-! ### `deep_update` preserves well-formedness -/

theorem du_wf (u original : CDict) (b : Bool) (wl : List String) (m : CDict)
    (hd : wfDict original = true) (hu : wfDict u = true)
    (h : deep_update original u b wl = .ok m) : wfDict m = true := by
  match u with
  | [] =>
    rw [du_step_nil] at h
    cases h
    exact hd
  | (k, v) :: rest =>
    have hvu : wfVal v = true := by
      rw [wfDict_cons] at hu
      simp only [Bool.and_eq_true] at hu
      exact hu.1.2
    have hru : wfDict rest = true := by
      rw [wfDict_cons] at hu
      simp only [Bool.and_eq_true] at hu
      exact hu.2
    rcases hlk : lookup original k with _ | w
    · by_cases hb : b = true
      · rw [du_step_set_none original k v rest b wl (by simp [hb]) hlk] at h
        exact du_wf rest (setKey original k v) b wl m
          (wf_setKey original k v hd hvu) hru h
      · rw [Bool.not_eq_true] at hb
        subst hb
        rw [du_step_err original k v rest wl
          (containsKey_eq_false_of_lookup_none original k hlk)] at h
        cases h
    · cases hw : w with
      | dict od =>
        match v, hvu with
        | CVal.dict nd, hvu =>
          subst hw
          rw [du_step_dictdict original k od nd rest b wl hlk] at h
          rcases hin : deep_update od nd (if k ∈ wl then true else b) [] with e | od'
          · rw [hin] at h
            simp at h
          · rw [hin] at h
            simp only [] at h
            have hwfod : wfDict od = true := wf_lookup original hd k _ hlk
            have hwfod' : wfDict od' = true :=
              du_wf nd od (if k ∈ wl then true else b) [] od' hwfod hvu hin
            exact du_wf rest (setKey original k (.dict od')) b wl m
              (wf_setKey original k (.dict od') hd hwfod') hru h
        | CVal.bool bb, _ =>
          subst hw
          rw [du_step_dict_nondict original k od (.bool bb) rest b wl hlk rfl] at h
          cases h
        | CVal.num n, _ =>
          subst hw
          rw [du_step_dict_nondict original k od (.num n) rest b wl hlk rfl] at h
          cases h
        | CVal.str s, _ =>
          subst hw
          rw [du_step_dict_nondict original k od (.str s) rest b wl hlk rfl] at h
          cases h
        | CVal.nil, _ =>
          subst hw
          rw [du_step_dict_nondict original k od .nil rest b wl hlk rfl] at h
          cases h
        | CVal.atom t, _ =>
          subst hw
          rw [du_step_dict_nondict original k od (.atom t) rest b wl hlk rfl] at h
          cases h
      | bool bb =>
        subst hw
        rw [du_step_set_nondict original k (.bool bb) v rest b wl hlk rfl] at h
        exact du_wf rest (setKey original k v) b wl m
          (wf_setKey original k v hd hvu) hru h
      | num n =>
        subst hw
        rw [du_step_set_nondict original k (.num n) v rest b wl hlk rfl] at h
        exact du_wf rest (setKey original k v) b wl m
          (wf_setKey original k v hd hvu) hru h
      | str s =>
        subst hw
        rw [du_step_set_nondict original k (.str s) v rest b wl hlk rfl] at h
        exact du_wf rest (setKey original k v) b wl m
          (wf_setKey original k v hd hvu) hru h
      | nil =>
        subst hw
        rw [du_step_set_nondict original k .nil v rest b wl hlk rfl] at h
        exact du_wf rest (setKey original k v) b wl m
          (wf_setKey original k v hd hvu) hru h
      | atom t =>
        subst hw
        rw [du_step_set_nondict original k (.atom t) v rest b wl hlk rfl] at h
        exact du_wf rest (setKey original k v) b wl m
          (wf_setKey original k v hd hvu) hru h
termination_by sizeOf u
decreasing_by
  all_goals simp_wf
  all_goals omega
/-! ### Fresh-key and unknown-key behavior of `deep_update` -/

theorem containsKey_append (d1 d2 : CDict) (k : String) :
    containsKey (d1 ++ d2) k = (containsKey d1 k || containsKey d2 k) := by
  induction d1 with
  | nil => simp [containsKey]
  | cons kv rest ih =>
    obtain ⟨k', v'⟩ := kv
    by_cases hk : k' = k <;> simp [containsKey, hk, ih]

theorem setKey_append_of_fresh (d : CDict) (k : String) (v : CVal)
    (h : containsKey d k = false) : setKey d k v = d ++ [(k, v)] := by
  induction d with
  | nil => simp [setKey]
  | cons kv rest ih =>
    obtain ⟨k', v'⟩ := kv
    by_cases hk : k' = k
    · simp [containsKey, hk] at h
    · simp [containsKey, hk] at h
      simp [setKey, hk, ih h]

theorem lookup_isSome_of_containsKey (d : CDict) (k : String)
    (h : containsKey d k = true) : ∃ v, lookup d k = some v := by
  induction d with
  | nil => simp [containsKey] at h
  | cons kv rest ih =>
    obtain ⟨k', v'⟩ := kv
    by_cases hk : k' = k
    · exact ⟨v', by simp [lookup, hk]⟩
    · simp [containsKey, hk] at h
      obtain ⟨v, hv⟩ := ih h
      exact ⟨v, by simp [lookup, hk, hv]⟩

theorem containsKey_iff_mem_keys (d : CDict) (k : String) :
    containsKey d k = true ↔ k ∈ d.map Prod.fst := by
  induction d with
  | nil => simp [containsKey]
  | cons kv rest ih =>
    obtain ⟨k', v'⟩ := kv
    by_cases hk : k' = k
    · subst hk
      simp [containsKey]
    · simp only [containsKey, if_neg hk, List.map_cons, List.mem_cons, ih]
      constructor
      · intro h
        exact Or.inr h
      · rintro (h | h)
        · exact absurd h.symm hk
        · exact h

/-- With new keys allowed, merging a dict of entirely fresh keys appends
them all (Python dict insertion order), and in particular succeeds. -/
theorem du_fresh (u d : CDict) (wl : List String)
    (hfresh : ∀ kv ∈ u, containsKey d kv.1 = false)
    (hnodup : (u.map Prod.fst).Nodup) :
    deep_update d u true wl = .ok (d ++ u) := by
  induction u generalizing d with
  | nil => simp [du_step_nil]
  | cons kv rest ih =>
    obtain ⟨k, v⟩ := kv
    have hck : containsKey d k = false := hfresh (k, v) (List.mem_cons_self _ _)
    have hlk : lookup d k = none := lookup_of_not_containsKey d k hck
    rw [du_step_set_none d k v rest true wl (by simp) hlk]
    rw [setKey_append_of_fresh d k v hck]
    simp only [List.map_cons, List.nodup_cons] at hnodup
    have hfresh' : ∀ kv ∈ rest, containsKey (d ++ [(k, v)]) kv.1 = false := by
      intro kv hm
      rw [containsKey_append]
      have h1 : containsKey d kv.1 = false :=
        hfresh kv (List.mem_cons_of_mem _ hm)
      have h2 : containsKey [(k, v)] kv.1 = false := by
        have hne1 : kv.1 ≠ k := by
          intro hkk
          exact hnodup.1 (hkk ▸ List.mem_map_of_mem Prod.fst hm)
        have hne : ¬ k = kv.1 := fun hkk => hne1 hkk.symm
        simp [containsKey, hne]
      simp [h1, h2]
    rw [ih (d ++ [(k, v)]) hfresh' hnodup.2]
    simp

/-- With new keys forbidden, the presence of any key of `u` that is unknown
to `d` makes the whole merge fail. -/
theorem du_unknown_err (u d : CDict) (wl : List String) (k : String)
    (hk : containsKey u k = true) (hd : containsKey d k = false) :
    ∃ e, deep_update d u false wl = .error e := by
  induction u generalizing d with
  | nil => simp [containsKey] at hk
  | cons kv rest ih =>
    obtain ⟨j, v⟩ := kv
    by_cases hjk : j = k
    · subst hjk
      exact ⟨_, du_step_err d j v rest wl hd⟩
    · have hrk : containsKey rest k = true := by
        simpa [containsKey, hjk] using hk
      by_cases hcj : containsKey d j = true
      · obtain ⟨w, hw⟩ := lookup_isSome_of_containsKey d j hcj
        have hset : containsKey (setKey d j v) k = false := by
          rw [containsKey_setKey]
          simp [hjk, hd]
        cases w with
        | dict od =>
          cases v with
          | dict nd =>
            rcases hin : deep_update od nd (if j ∈ wl then true else false) []
              with e | od'
            · exact ⟨e, du_step_dictdict_err d j od nd rest false wl e hw hin⟩
            · rw [du_step_dictdict_ok d j od nd od' rest false wl hw hin]
              have hset' : containsKey (setKey d j (.dict od')) k = false := by
                rw [containsKey_setKey]
                simp [hjk, hd]
              exact ih (setKey d j (.dict od')) hrk hset'
          | bool bb => exact ⟨_, du_step_dict_nondict d j od _ rest false wl hw rfl⟩
          | num n => exact ⟨_, du_step_dict_nondict d j od _ rest false wl hw rfl⟩
          | str s => exact ⟨_, du_step_dict_nondict d j od _ rest false wl hw rfl⟩
          | nil => exact ⟨_, du_step_dict_nondict d j od _ rest false wl hw rfl⟩
          | atom t => exact ⟨_, du_step_dict_nondict d j od _ rest false wl hw rfl⟩
        | bool bb =>
          rw [du_step_set_nondict d j _ v rest false wl hw rfl]
          exact ih (setKey d j v) hrk (by rw [containsKey_setKey]; simp [hjk, hd])
        | num n =>
          rw [du_step_set_nondict d j _ v rest false wl hw rfl]
          exact ih (setKey d j v) hrk (by rw [containsKey_setKey]; simp [hjk, hd])
        | str s =>
          rw [du_step_set_nondict d j _ v rest false wl hw rfl]
          exact ih (setKey d j v) hrk (by rw [containsKey_setKey]; simp [hjk, hd])
        | nil =>
          rw [du_step_set_nondict d j _ v rest false wl hw rfl]
          exact ih (setKey d j v) hrk (by rw [containsKey_setKey]; simp [hjk, hd])
        | atom t =>
          rw [du_step_set_nondict d j _ v rest false wl hw rfl]
          exact ih (setKey d j v) hrk (by rw [containsKey_setKey]; simp [hjk, hd])
      · rw [Bool.not_eq_true] at hcj
        exact ⟨_, du_step_err d j v rest wl hcj⟩

/-! ### `lookup` through a shallow `dict.update` -/

theorem lookup_dictUpdate (extra : CDict) (d : CDict) (k : String)
    (hnodup : (extra.map Prod.fst).Nodup) :
    lookup (dictUpdate d extra) k
      = if containsKey extra k then lookup extra k else lookup d k := by
  induction extra generalizing d with
  | nil => simp [dictUpdate, containsKey]
  | cons kv rest ih =>
    obtain ⟨j, v⟩ := kv
    simp only [List.map_cons, List.nodup_cons] at hnodup
    have hstep : dictUpdate d ((j, v) :: rest) = dictUpdate (setKey d j v) rest := rfl
    rw [hstep, ih (setKey d j v) hnodup.2]
    by_cases hjk : j = k
    · subst hjk
      have hrk : containsKey rest j = false := by
        rcases h : containsKey rest j with _ | _
        · rfl
        · exact absurd ((containsKey_iff_mem_keys rest j).mp h) hnodup.1
      simp [hrk, containsKey, lookup, lookup_setKey]
    · by_cases hrk : containsKey rest k = true
      · simp [hrk, containsKey, lookup, hjk]
      · rw [Bool.not_eq_true] at hrk
        simp [hrk, containsKey, lookup, hjk, lookup_setKey]

/-! ### The `Agent` class constants and config operations (agent.py) -/

namespace Agent

/-- agent.py line 165. -/
def _allow_unknown_configs : Bool := false

/-- agent.py lines 166-168. -/
def _allow_unknown_subkeys : List String :=
  ["tf_session_args", "env_config", "model", "optimizer", "multiagent"]

/-- The config merge performed by `Agent._setup` (agent.py lines 264-269):
`deep_update` of a deep copy of the class default config with the supplied
config, under the class unknown-key policy and whitelist. -/
def setup_merge (default_config config : CDict) : Except String CDict :=
  deep_update (deepcopyD default_config) config
    _allow_unknown_configs _allow_unknown_subkeys

/-- `Agent._validate_config` (agent.py lines 434-447): a `ValueError` for
each deprecated key, in source order. -/
def _validate_config (config : CDict) : Except String Unit :=
  if containsKey config "gpu" then
    .error "The `gpu` config is deprecated, please use `num_gpus=0|1` instead."
  else if containsKey config "gpu_fraction" then
    .error
      "The `gpu_fraction` config is deprecated, please use `num_gpus=<fraction>` instead."
  else if containsKey config "use_gpu_for_workers" then
    .error
      "The `use_gpu_for_workers` config is deprecated, please use `num_gpus_per_worker=1` instead."
  else .ok ()

/-- The validation performed during `Agent.__init__` (agent.py lines
181-182): `config = config or {}` followed by `Agent._validate_config`. -/
def init_validate (config : Option CDict) : Except String Unit :=
  _validate_config (config.getD [])

end Agent

/-- `MODEL_DEFAULTS`, imported from `ray.rllib.models`; its contents are
never inspected by agent.py. -/
def MODEL_DEFAULTS : CVal := .atom "MODEL_DEFAULTS"

/-- `COMMON_CONFIG` (agent.py lines 30-140).  Floats are kept as inert
`atom`s tagged with their source text. -/
def COMMON_CONFIG : CDict := [
  ("monitor", .bool false),
  ("log_level", .str "INFO"),
  ("callbacks", .dict [
    ("on_episode_start", .nil),
    ("on_episode_step", .nil),
    ("on_episode_end", .nil),
    ("on_sample_end", .nil),
    ("on_train_result", .nil)]),
  ("model", MODEL_DEFAULTS),
  ("optimizer", .dict []),
  ("gamma", .atom "0.99"),
  ("horizon", .nil),
  ("env_config", .dict []),
  ("env", .nil),
  ("clip_rewards", .nil),
  ("clip_actions", .bool true),
  ("preprocessor_pref", .str "deepmind"),
  ("num_workers", .num 2),
  ("num_gpus", .num 0),
  ("num_cpus_per_worker", .num 1),
  ("num_gpus_per_worker", .num 0),
  ("custom_resources_per_worker", .dict []),
  ("num_cpus_for_driver", .num 1),
  ("num_envs_per_worker", .num 1),
  ("sample_batch_size", .num 200),
  ("train_batch_size", .num 200),
  ("batch_mode", .str "truncate_episodes"),
  ("sample_async", .bool false),
  ("observation_filter", .str "NoFilter"),
  ("synchronize_filters", .bool true),
  ("tf_session_args", .dict [
    ("intra_op_parallelism_threads", .num 2),
    ("inter_op_parallelism_threads", .num 2),
    ("gpu_options", .dict [("allow_growth", .bool true)]),
    ("log_device_placement", .bool false),
    ("device_count", .dict [("CPU", .num 1)]),
    ("allow_soft_placement", .bool true)]),
  ("local_evaluator_tf_session_args", .dict [
    ("intra_op_parallelism_threads", .num 8),
    ("inter_op_parallelism_threads", .num 8)]),
  ("compress_observations", .bool false),
  ("collect_metrics_timeout", .num 180),
  ("multiagent", .dict [
    ("policy_graphs", .dict []),
    ("policy_mapping_fn", .nil),
    ("policies_to_train", .nil)])]

/-- `with_common_config` (agent.py lines 145-150), with the module global
`COMMON_CONFIG` threaded as explicit state: the first component is the value
of the global after the call (the function reads it only through
`copy.deepcopy`, so it is returned unchanged), the second is the returned
config `deepcopy(COMMON_CONFIG)` shallow-updated with `extra_config`. -/
def with_common_config (common_config_state extra_config : CDict) :
    CDict × CDict :=
  (common_config_state, dictUpdate (deepcopyD common_config_state) extra_config)

/-! ### Claim theorems: config merging and validation -/

/-- Claim C3: the config merge of `Agent._setup` is idempotent: if merging
the (well-formed) default config `d` with the (well-formed) user config `u`
yields `m`, then performing the same merge of `m` with `m` yields `m`
again. -/
theorem setup_merge_idempotent (d u m : CDict)
    (hd : wfDict d = true) (hu : wfDict u = true)
    (h : Agent.setup_merge d u = .ok m) :
    Agent.setup_merge m m = .ok m := by
  unfold Agent.setup_merge at h ⊢
  rw [deepcopyD_eq] at h
  rw [deepcopyD_eq]
  exact du_self m _ _ (du_wf u d _ _ m hd hu h)

/-- Witness for C3 at a concrete default config, user config and merge
result. -/
theorem setup_merge_idempotent_witness :
    wfDict [("gamma", CVal.num 1)] = true ∧
    wfDict [("gamma", CVal.num 2)] = true ∧
    Agent.setup_merge [("gamma", CVal.num 1)] [("gamma", CVal.num 2)]
      = .ok [("gamma", CVal.num 2)] ∧
    Agent.setup_merge [("gamma", CVal.num 2)] [("gamma", CVal.num 2)]
      = .ok [("gamma", CVal.num 2)] := by
  have h1 : wfDict [("gamma", CVal.num 1)] = true := by
    simp [wfDict, wfVal, containsKey]
  have h2 : wfDict [("gamma", CVal.num 2)] = true := by
    simp [wfDict, wfVal, containsKey]
  have h3 : Agent.setup_merge [("gamma", CVal.num 1)] [("gamma", CVal.num 2)]
      = .ok [("gamma", CVal.num 2)] := by
    simp [Agent.setup_merge, Agent._allow_unknown_configs,
      Agent._allow_unknown_subkeys, deepcopyD_eq, deep_update, lookup,
      containsKey, setKey]
  exact ⟨h1, h2, h3, setup_merge_idempotent _ _ _ h1 h2 h3⟩

/-- Claim C4: `Agent._validate_config` (called during `Agent.__init__`)
raises a `ValueError` with a descriptive message whenever the config
contains one of the deprecated keys `gpu`, `gpu_fraction`,
`use_gpu_for_workers`, and returns normally when it contains none. -/
theorem validate_config_deprecated (config : CDict) :
    (containsKey config "gpu" = true →
      Agent._validate_config config
        = .error "The `gpu` config is deprecated, please use `num_gpus=0|1` instead.")
    ∧ (containsKey config "gpu" = false →
       containsKey config "gpu_fraction" = true →
      Agent._validate_config config
        = .error "The `gpu_fraction` config is deprecated, please use `num_gpus=<fraction>` instead.")
    ∧ (containsKey config "gpu" = false →
       containsKey config "gpu_fraction" = false →
       containsKey config "use_gpu_for_workers" = true →
      Agent._validate_config config
        = .error "The `use_gpu_for_workers` config is deprecated, please use `num_gpus_per_worker=1` instead.")
    ∧ ((containsKey config "gpu" || containsKey config "gpu_fraction" ||
        containsKey config "use_gpu_for_workers") = true →
      ∃ e, Agent._validate_config config = .error e)
    ∧ ((containsKey config "gpu" || containsKey config "gpu_fraction" ||
        containsKey config "use_gpu_for_workers") = false →
      Agent._validate_config config = .ok ()) := by
  unfold Agent._validate_config
  by_cases h1 : containsKey config "gpu" = true
  · simp [h1]
  · rw [Bool.not_eq_true] at h1
    by_cases h2 : containsKey config "gpu_fraction" = true
    · simp [h1, h2]
    · rw [Bool.not_eq_true] at h2
      by_cases h3 : containsKey config "use_gpu_for_workers" = true
      · simp [h1, h2, h3]
      · rw [Bool.not_eq_true] at h3
        simp [h1, h2, h3]

/-- Witness for C4: a config with the deprecated `gpu` key fails with the
descriptive message, and a config with none of the deprecated keys
validates. -/
theorem validate_config_deprecated_witness :
    Agent._validate_config [("gpu", CVal.num 1)]
      = .error "The `gpu` config is deprecated, please use `num_gpus=0|1` instead."
    ∧ Agent._validate_config [("num_gpus", CVal.num 1)] = .ok () :=
  ⟨(validate_config_deprecated [("gpu", CVal.num 1)]).1 (by decide),
   (validate_config_deprecated [("num_gpus", CVal.num 1)]).2.2.2.2 (by decide)⟩

/-- Claim C5: under the merge policy of `Agent._setup`
(`_allow_unknown_configs = false`, whitelist `_allow_unknown_subkeys`):
a user config key unknown to the default config makes the merge fail;
unknown keys nested inside a whitelisted sub-mapping are accepted (and
appended to the sub-mapping); and unknown keys nested inside a
non-whitelisted sub-mapping still make the merge fail. -/
theorem unknown_config_key_policy :
    (∀ (d u : CDict) (k : String),
      containsKey u k = true → containsKey d k = false →
      ∃ e, deep_update d u Agent._allow_unknown_configs
          Agent._allow_unknown_subkeys = .error e)
    ∧ (∀ (d sub newsub : CDict) (k : String),
      k ∈ Agent._allow_unknown_subkeys →
      lookup d k = some (.dict sub) →
      (∀ kv ∈ newsub, containsKey sub kv.1 = false) →
      (newsub.map Prod.fst).Nodup →
      deep_update d [(k, .dict newsub)] Agent._allow_unknown_configs
          Agent._allow_unknown_subkeys
        = .ok (setKey d k (.dict (sub ++ newsub))))
    ∧ (∀ (d sub newsub : CDict) (k j : String),
      k ∉ Agent._allow_unknown_subkeys →
      lookup d k = some (.dict sub) →
      containsKey newsub j = true → containsKey sub j = false →
      ∃ e, deep_update d [(k, .dict newsub)] Agent._allow_unknown_configs
          Agent._allow_unknown_subkeys = .error e) := by
  refine ⟨?_, ?_, ?_⟩
  · intro d u k hk hd
    simp only [Agent._allow_unknown_configs]
    exact du_unknown_err u d Agent._allow_unknown_subkeys k hk hd
  · intro d sub newsub k hwl hlk hfresh hnodup
    simp only [Agent._allow_unknown_configs]
    have hin : deep_update sub newsub
        (if k ∈ Agent._allow_unknown_subkeys then true else false) []
        = .ok (sub ++ newsub) := by
      rw [if_pos hwl]
      exact du_fresh newsub sub [] hfresh hnodup
    rw [du_step_dictdict_ok d k sub newsub (sub ++ newsub) []
      false Agent._allow_unknown_subkeys hlk hin]
    exact du_step_nil _ _ _
  · intro d sub newsub k j hwl hlk hj hsub
    simp only [Agent._allow_unknown_configs]
    obtain ⟨e, he⟩ :=
      du_unknown_err newsub sub [] j hj hsub
    have hin : deep_update sub newsub
        (if k ∈ Agent._allow_unknown_subkeys then true else false) []
        = .error e := by
      rw [if_neg hwl]
      exact he
    exact ⟨e, du_step_dictdict_err d k sub newsub [] false
      Agent._allow_unknown_subkeys e hlk hin⟩

/-- Witness for C5: an unknown top-level key fails; an unknown key inside
the whitelisted `model` sub-mapping is accepted; an unknown key inside the
non-whitelisted `callbacks` sub-mapping fails. -/
theorem unknown_config_key_policy_witness :
    (∃ e, deep_update [] [("foo", CVal.num 1)] Agent._allow_unknown_configs
        Agent._allow_unknown_subkeys = .error e)
    ∧ deep_update [("model", CVal.dict [])]
        [("model", CVal.dict [("custom", CVal.num 1)])]
        Agent._allow_unknown_configs Agent._allow_unknown_subkeys
      = .ok (setKey [("model", CVal.dict [])] "model"
          (.dict ([] ++ [("custom", CVal.num 1)])))
    ∧ (∃ e, deep_update [("callbacks", CVal.dict [])]
        [("callbacks", CVal.dict [("custom", CVal.num 1)])]
        Agent._allow_unknown_configs Agent._allow_unknown_subkeys
      = .error e) :=
  ⟨unknown_config_key_policy.1 [] [("foo", CVal.num 1)] "foo"
    (by decide) (by decide),
   unknown_config_key_policy.2.1 [("model", CVal.dict [])] []
    [("custom", CVal.num 1)] "model" (by decide) rfl
    (by intro kv h; simp at h; simp [h, containsKey]) (by simp),
   unknown_config_key_policy.2.2 [("callbacks", CVal.dict [])] []
    [("custom", CVal.num 1)] "callbacks" "custom" (by decide) rfl
    (by decide) (by decide)⟩

/-- Claim C10: `with_common_config` leaves the module global
`COMMON_CONFIG` unchanged (it updates a deep copy), and the merge is
shallow: a top-level key present in `extra_config` maps to `extra_config`'s
value wholesale (the entire sub-tree, no deep merge), and every other key
keeps its `COMMON_CONFIG` value. -/
theorem with_common_config_shallow (extra_config : CDict)
    (hnodup : (extra_config.map Prod.fst).Nodup) (k : String) :
    (with_common_config COMMON_CONFIG extra_config).1 = COMMON_CONFIG
    ∧ (containsKey extra_config k = true →
        lookup (with_common_config COMMON_CONFIG extra_config).2 k
          = lookup extra_config k)
    ∧ (containsKey extra_config k = false →
        lookup (with_common_config COMMON_CONFIG extra_config).2 k
          = lookup COMMON_CONFIG k) := by
  refine ⟨rfl, ?_, ?_⟩ <;> intro h <;>
    simp [with_common_config, deepcopyD_eq,
      lookup_dictUpdate extra_config _ k hnodup, h]

/-- Witness for C10 at a one-entry `extra_config` overriding
`num_workers`. -/
theorem with_common_config_shallow_witness :
    (with_common_config COMMON_CONFIG [("num_workers", CVal.num 5)]).1
      = COMMON_CONFIG
    ∧ (containsKey [("num_workers", CVal.num 5)] "num_workers" = true →
        lookup (with_common_config COMMON_CONFIG
          [("num_workers", CVal.num 5)]).2 "num_workers"
          = lookup [("num_workers", CVal.num 5)] "num_workers")
    ∧ (containsKey [("num_workers", CVal.num 5)] "num_workers" = false →
        lookup (with_common_config COMMON_CONFIG
          [("num_workers", CVal.num 5)]).2 "num_workers"
          = lookup COMMON_CONFIG "num_workers") :=
  with_common_config_shallow [("num_workers", CVal.num 5)] (by simp)
    "num_workers"

/-! ### Generic association lists for evaluator components -/

/-- Python dict lookup, generic in the value type. -/
def alookup {α : Type} : List (String × α) → String → Option α
  | [], _ => none
  | (k', v) :: rest, k => if k' = k then some v else alookup rest k

/-- Python dict assignment, generic in the value type. -/
def asetKey {α : Type} : List (String × α) → String → α → List (String × α)
  | [], k, v => [(k, v)]
  | (k', v') :: rest, k, v =>
    if k' = k then (k, v) :: rest else (k', v') :: asetKey rest k v

theorem asetKey_alookup_self {α : Type} (d : List (String × α)) (k : String)
    (v : α) (h : alookup d k = some v) : asetKey d k v = d := by
  induction d with
  | nil => simp [alookup] at h
  | cons kv rest ih =>
    obtain ⟨k', v'⟩ := kv
    by_cases hk : k' = k
    · subst hk
      simp [alookup] at h
      simp [asetKey, h]
    · simp [alookup, hk] at h
      simp [asetKey, hk, ih h]

/-! ### The agent's collaborators (modelled from the spec) -/

/-- The global variables mapping: in agent.py it always holds exactly the
`timestep` counter. -/
structure GlobalVars where
  timestep : Nat
deriving Repr, DecidableEq

/-- Modelled from the spec: an element-wise observation filter
(`NoFilter` / `MeanStdFilter` from ray.rllib.utils, not under the given
sources) with running statistics, an observation transformation, and a
statistics-update rule. -/
structure Filter where
  stats : Int
  transform : Int → Int
  updateStats : Int → Int → Int

/-- Modelled from the spec: calling a filter on an observation transforms it
and updates the running statistics only when `update` is true. -/
def applyFilter (f : Filter) (x : Int) (update : Bool) : Int × Filter :=
  (f.transform x,
   if update then { f with stats := f.updateStats f.stats x } else f)

/-- Modelled from the spec: a policy graph; `compute_single_action` maps an
observation and an RNN state to (computed action, RNN state, logits
dictionary). -/
structure Policy where
  compute_single_action : Int → List Int → Int × List Int × List (String × Int)

/-- The serializable part of an evaluator: modelled from the spec,
`PolicyEvaluator.save` serializes the filter and policy (weight) states. -/
structure EvalState where
  filters : List (String × Filter)
  weights : Int

/-- Modelled from the spec: a policy evaluator (ray.rllib.evaluation, not
under the given sources) as the agent sees it: per-policy preprocessors,
observation filters and policies, the last pushed global vars, and its
policy weights. -/
structure Evaluator where
  preprocessors : List (String × (Int → Int))
  filters : List (String × Filter)
  policies : List (String × Policy)
  global_vars : GlobalVars
  weights : Int

/-- Modelled from the spec: `set_global_vars` stores the pushed mapping. -/
def Evaluator.set_global_vars (e : Evaluator) (gv : GlobalVars) : Evaluator :=
  { e with global_vars := gv }

/-- Modelled from the spec: `PolicyEvaluator.save`. -/
def Evaluator.save (e : Evaluator) : EvalState :=
  { filters := e.filters, weights := e.weights }

/-- Modelled from the spec: `PolicyEvaluator.restore`. -/
def Evaluator.restore (e : Evaluator) (blob : EvalState) : Evaluator :=
  { e with filters := blob.filters, weights := blob.weights }

/-- Modelled from the spec: a policy optimizer (ray.rllib.optimizers, not
under the given sources): whether it is a `PolicyOptimizer` instance, its
`num_steps_sampled` counter, its own local and remote evaluators, its
internal state, and whether it has a `save` method. -/
structure Optimizer where
  isPolicyOptimizer : Bool
  num_steps_sampled : Nat
  local_evaluator : Evaluator
  remote_evaluators : List Evaluator
  optState : Int
  hasSave : Bool

/-- Modelled from the spec: `PolicyOptimizer.save`. -/
def Optimizer.save (o : Optimizer) : Int := o.optState

/-- Modelled from the spec: `PolicyOptimizer.restore`. -/
def Optimizer.restore (o : Optimizer) (blob : Int) : Optimizer :=
  { o with optState := blob }

/-- The slice of the merged config that `Agent.train` reads. -/
structure TrainConfig where
  observation_filter : String
  synchronize_filters : Bool
  has_on_train_result : Bool
deriving Repr, DecidableEq

/-- The mutable state of an `Agent` object as far as the claims are
concerned.  `optimizer` and `local_evaluator` are `Option`s because
`hasattr` guards both in agent.py; `nextResult` is the result the delegated
training step will produce. -/
structure AgentState where
  global_vars : GlobalVars
  optimizer : Option Optimizer
  local_evaluator : Option Evaluator
  remote_evaluators : List Evaluator
  config : TrainConfig
  _iteration : Nat
  nextResult : Int

/-- The observable effects `Agent.train` issues, in order. -/
inductive Event where
  | setGlobalVarsLocal (gv : GlobalVars)
  | setGlobalVarsRemote (i : Nat) (gv : GlobalVars)
  | syncFilters (update_remote : Bool)
  | trainableTrain
  | onTrainResult
deriving Repr, DecidableEq

/-- Modelled from the spec: `FilterManager.synchronize` aggregates the
remote evaluators' filter statistics into the local filters and, when
`update_remote`, pushes the synchronized filters back to the remotes. -/
def FilterManager.synchronize (localFilters : List (String × Filter))
    (remotes : List Evaluator) (update_remote : Bool) :
    List (String × Filter) × List Evaluator :=
  let merged := remotes.foldl (fun acc e =>
    acc.map (fun kv =>
      match alookup e.filters kv.1 with
      | some f => (kv.1, { kv.2 with stats := kv.2.stats + f.stats })
      | none => kv)) localFilters
  (merged,
   if update_remote then remotes.map (fun e => { e with filters := merged })
   else remotes)

/-- Modelled from the spec: `Trainable.train` (ray.tune, not under the
given sources), the delegated training step: produces the iteration result
and auto-increments the iteration counter. -/
def Trainable.train (a : AgentState) : Int × AgentState :=
  (a.nextResult, { a with _iteration := a._iteration + 1 })

/-- agent.py lines 226-232: if the agent has a `PolicyOptimizer`, set
`global_vars["timestep"]` from the optimizer's `num_steps_sampled` and push
the mapping to the optimizer's local evaluator and (asynchronously) to each
of its remote evaluators. -/
def Agent.train_gv_step (a : AgentState) : AgentState × List Event :=
  match a.optimizer with
  | some opt =>
    if opt.isPolicyOptimizer then
      let gv : GlobalVars := { timestep := opt.num_steps_sampled }
      let opt' := { opt with
        local_evaluator := opt.local_evaluator.set_global_vars gv,
        remote_evaluators :=
          opt.remote_evaluators.map (fun ev => ev.set_global_vars gv) }
      ({ a with global_vars := gv, optimizer := some opt' },
       Event.setGlobalVarsLocal gv ::
         (List.range opt.remote_evaluators.length).map
           (fun i => Event.setGlobalVarsRemote i gv))
    else (a, [])
  | none => (a, [])

/-- agent.py lines 234-241: if an observation filter is configured and the
agent has a local evaluator, synchronize filter statistics across the
agent's evaluators. -/
def Agent.train_filter_step (a : AgentState) : AgentState × List Event :=
  if a.config.observation_filter ≠ "NoFilter" then
    match a.local_evaluator with
    | some le =>
      let sync := FilterManager.synchronize le.filters a.remote_evaluators
        a.config.synchronize_filters
      ({ a with
          local_evaluator := some { le with filters := sync.1 },
          remote_evaluators := sync.2 },
       [Event.syncFilters a.config.synchronize_filters])
    | none => (a, [])
  else (a, [])

/-- agent.py lines 244-248: invoke the `on_train_result` callback if one is
registered. -/
def Agent.train_callback_events (a : AgentState) : List Event :=
  if a.config.has_on_train_result then [Event.onTrainResult] else []

/-- `Agent.train` (agent.py lines 222-249): global-vars push, filter
synchronization, the delegated `Trainable.train` step, then the
`on_train_result` callback; returns the new state, the training result and
the trace of issued effects in order. -/
def Agent.train (a : AgentState) : AgentState × Int × List Event :=
  let s1 := Agent.train_gv_step a
  let s2 := Agent.train_filter_step s1.1
  let tr := Trainable.train s2.1
  (tr.2, tr.1,
   s1.2 ++ s2.2 ++ Event.trainableTrain :: Agent.train_callback_events tr.2)

/-- `Agent.iteration` (agent.py lines 330-334): the current training
iteration, auto-incremented by each `Trainable.train` call. -/
def Agent.iteration (a : AgentState) : Nat := a._iteration

/-- The mapping built by `Agent.__getstate__` (agent.py lines 449-455):
an optional `"evaluator"` entry and an optional `"optimizer"` entry. -/
structure AgentCkpt where
  evaluator : Option EvalState
  optimizer : Option Int

/-- `Agent.__getstate__` (agent.py lines 449-455). -/
def Agent.getstate (a : AgentState) : AgentCkpt :=
  { evaluator := a.local_evaluator.map Evaluator.save,
    optimizer :=
      match a.optimizer with
      | some o => if o.hasSave then some o.save else none
      | none => none }

/-- `Agent.__setstate__` (agent.py lines 457-464): restore the local
evaluator from the saved evaluator state, push the same state to every
remote evaluator, and restore the optimizer state if present. -/
def Agent.setstate (a : AgentState) (state : AgentCkpt) : AgentState :=
  let a1 :=
    match state.evaluator with
    | some blob =>
      { a with
        local_evaluator := a.local_evaluator.map (fun e => e.restore blob),
        remote_evaluators := a.remote_evaluators.map (fun r => r.restore blob) }
    | none => a
  match state.optimizer with
  | some blob =>
    { a1 with optimizer := a1.optimizer.map (fun o => o.restore blob) }
  | none => a1

/-- `os.path.join` for one component, as used by `Agent._save`. -/
def pathJoin (dir name : String) : String :=
  if name.data.head? = some '/' then name
  else if dir = "" then name
  else if dir.data.getLast? = some '/' then dir ++ name
  else dir ++ "/" ++ name

/-- `Agent._save` (agent.py lines 286-291): build the checkpoint path
`checkpoint-<iteration>` inside `checkpoint_dir`, write the pickled
`__getstate__` mapping to it (the write is modelled as a path-to-content
pair; pickling is the identity embedding of the state mapping), and return
the path. -/
def Agent._save (a : AgentState) (checkpoint_dir : String) :
    String × List (String × AgentCkpt) :=
  let checkpoint_path :=
    pathJoin checkpoint_dir ("checkpoint-" ++ toString (Agent.iteration a))
  (checkpoint_path, [(checkpoint_path, Agent.getstate a)])

/-- The result of `Agent.compute_action`: Python returns either the bare
computed action or the full (action, RNN state, logits) tuple. -/
inductive CAResult where
  | singleAction (action : Int)
  | fullResult (action : Int) (state : List Int) (logits : List (String × Int))
deriving Repr, DecidableEq

/-- `Agent.compute_action` (agent.py lines 303-328): default the state to
`[]` when `None`, preprocess and filter the observation (`update=False`),
then query the policy; a truthy (non-empty) state returns the full
`compute_single_action` result, otherwise only element 0.  Missing
attributes or dict keys are Python exceptions, modelled as errors. -/
def Agent.compute_action (a : AgentState) (observation : Int)
    (state : Option (List Int)) (policy_id : String) :
    Except String (CAResult × AgentState) :=
  match a.local_evaluator with
  | none => .error "AttributeError: local_evaluator"
  | some le =>
    let st := state.getD []
    match alookup le.preprocessors policy_id with
    | none => .error "KeyError: preprocessor"
    | some pre =>
      let preprocessed := pre observation
      match alookup le.filters policy_id with
      | none => .error "KeyError: filter"
      | some f =>
        let fr := applyFilter f preprocessed false
        let le' := { le with filters := asetKey le.filters policy_id fr.2 }
        let a' := { a with local_evaluator := some le' }
        match alookup le.policies policy_id with
        | none => .error "KeyError: policy"
        | some p =>
          let r := p.compute_single_action fr.1 st
          if st.isEmpty then .ok (.singleAction r.1, a')
          else .ok (.fullResult r.1 r.2.1 r.2.2, a')

/-- The synchronization effects of C1/C2: global-vars pushes and filter
synchronization. -/
def isSyncEvent : Event → Bool
  | .setGlobalVarsLocal _ => true
  | .setGlobalVarsRemote _ _ => true
  | .syncFilters _ => true
  | .trainableTrain => false
  | .onTrainResult => false

theorem train_gv_step_opt (a : AgentState) (opt : Optimizer)
    (hopt : a.optimizer = some opt) (hpo : opt.isPolicyOptimizer = true) :
    Agent.train_gv_step a
      = ({ a with
            global_vars := ⟨opt.num_steps_sampled⟩,
            optimizer := some { opt with
              local_evaluator :=
                opt.local_evaluator.set_global_vars ⟨opt.num_steps_sampled⟩,
              remote_evaluators := opt.remote_evaluators.map
                (fun ev => ev.set_global_vars ⟨opt.num_steps_sampled⟩) } },
         Event.setGlobalVarsLocal ⟨opt.num_steps_sampled⟩ ::
           (List.range opt.remote_evaluators.length).map
             (fun i => Event.setGlobalVarsRemote i ⟨opt.num_steps_sampled⟩)) := by
  unfold Agent.train_gv_step
  rw [hopt]
  simp [hpo]

theorem train_gv_step_events_sync (a : AgentState) :
    ∀ x ∈ (Agent.train_gv_step a).2, isSyncEvent x = true := by
  intro x hx
  unfold Agent.train_gv_step at hx
  rcases h : a.optimizer with _ | opt
  · rw [h] at hx
    simp at hx
  · rw [h] at hx
    by_cases hp : opt.isPolicyOptimizer = true
    · simp only [hp, if_true] at hx
      rcases List.mem_cons.mp hx with h1 | h1
      · rw [h1]
        rfl
      · obtain ⟨i, _, hi⟩ := List.mem_map.mp h1
        rw [← hi]
        rfl
    · rw [Bool.not_eq_true] at hp
      simp [hp] at hx

theorem train_filter_step_preserves (a : AgentState) :
    (Agent.train_filter_step a).1.optimizer = a.optimizer
    ∧ (Agent.train_filter_step a).1.global_vars = a.global_vars
    ∧ (Agent.train_filter_step a).1._iteration = a._iteration
    ∧ (Agent.train_filter_step a).1.nextResult = a.nextResult
    ∧ (Agent.train_filter_step a).1.config = a.config := by
  unfold Agent.train_filter_step
  split
  · rcases a.local_evaluator with _ | le <;> simp
  · simp

theorem train_filter_step_events (a : AgentState) :
    (Agent.train_filter_step a).2 = []
    ∨ (Agent.train_filter_step a).2
        = [Event.syncFilters a.config.synchronize_filters] := by
  unfold Agent.train_filter_step
  split
  · rcases a.local_evaluator with _ | le <;> simp
  · simp

theorem train_callback_events_shape (a : AgentState) :
    Agent.train_callback_events a = []
    ∨ Agent.train_callback_events a = [Event.onTrainResult] := by
  unfold Agent.train_callback_events
  split <;> simp

theorem evaluator_restore_save (e : Evaluator) : e.restore e.save = e := by
  cases e
  rfl

theorem optimizer_restore_save (o : Optimizer) : o.restore o.save = o := by
  cases o
  rfl

/-! ### Concrete states used by the witnesses and the counterexample -/

/-- A concrete policy: action is `obs + 1`, the RNN state is `0` consed onto
the input state, the logits dict holds the raw observation. -/
def cexPolicy : Policy :=
  ⟨fun obs st => (obs + 1, 0 :: st, [("p", obs)])⟩

/-- A concrete filter with identity transformation. -/
def cexFilter : Filter :=
  { stats := 0, transform := fun x => x, updateStats := fun s _ => s + 1 }

/-- A concrete evaluator with identity preprocessor and filter. -/
def cexEvaluator : Evaluator :=
  { preprocessors := [("default", fun x => x)],
    filters := [("default", cexFilter)],
    policies := [("default", cexPolicy)],
    global_vars := ⟨0⟩,
    weights := 11 }

/-- A concrete optimizer with one remote evaluator. -/
def cexOptimizer : Optimizer :=
  { isPolicyOptimizer := true, num_steps_sampled := 42,
    local_evaluator := cexEvaluator, remote_evaluators := [cexEvaluator],
    optState := 9, hasSave := true }

/-- A concrete agent without an optimizer. -/
def cexAgent : AgentState :=
  { global_vars := ⟨0⟩, optimizer := none,
    local_evaluator := some cexEvaluator, remote_evaluators := [],
    config := ⟨"NoFilter", true, false⟩, _iteration := 0, nextResult := 0 }

/-- A concrete agent with a policy optimizer. -/
def cexAgentOpt : AgentState :=
  { global_vars := ⟨0⟩, optimizer := some cexOptimizer,
    local_evaluator := some cexEvaluator, remote_evaluators := [cexEvaluator],
    config := ⟨"NoFilter", true, false⟩, _iteration := 0, nextResult := 0 }

theorem train_state_opt (a : AgentState) (opt : Optimizer)
    (hopt : a.optimizer = some opt) (hpo : opt.isPolicyOptimizer = true) :
    (Agent.train a).1.global_vars = ⟨opt.num_steps_sampled⟩
    ∧ (Agent.train a).1.optimizer = some { opt with
        local_evaluator :=
          opt.local_evaluator.set_global_vars ⟨opt.num_steps_sampled⟩,
        remote_evaluators := opt.remote_evaluators.map
          (fun ev => ev.set_global_vars ⟨opt.num_steps_sampled⟩) } := by
  unfold Agent.train
  rw [train_gv_step_opt a opt hopt hpo]
  simp only []
  obtain ⟨ho, hg, _, _, _⟩ := train_filter_step_preserves
    { a with
      global_vars := ⟨opt.num_steps_sampled⟩,
      optimizer := some { opt with
        local_evaluator :=
          opt.local_evaluator.set_global_vars ⟨opt.num_steps_sampled⟩,
        remote_evaluators := opt.remote_evaluators.map
          (fun ev => ev.set_global_vars ⟨opt.num_steps_sampled⟩) } }
  constructor
  · rw [Trainable.train]
    simpa using hg
  · rw [Trainable.train]
    simpa using ho

theorem train_trace_opt (a : AgentState) (opt : Optimizer)
    (hopt : a.optimizer = some opt) (hpo : opt.isPolicyOptimizer = true) :
    ∃ s2evs cbevs : List Event,
      (Agent.train a).2.2
        = Event.setGlobalVarsLocal ⟨opt.num_steps_sampled⟩ ::
            ((List.range opt.remote_evaluators.length).map
              (fun i => Event.setGlobalVarsRemote i ⟨opt.num_steps_sampled⟩)
             ++ (s2evs ++ Event.trainableTrain :: cbevs))
      ∧ (s2evs = [] ∨ ∃ b, s2evs = [Event.syncFilters b])
      ∧ (cbevs = [] ∨ cbevs = [Event.onTrainResult]) := by
  refine ⟨(Agent.train_filter_step (Agent.train_gv_step a).1).2,
    Agent.train_callback_events
      (Trainable.train (Agent.train_filter_step (Agent.train_gv_step a).1).1).2,
    ?_, ?_, ?_⟩
  · unfold Agent.train
    rw [train_gv_step_opt a opt hopt hpo]
    simp
  · rcases train_filter_step_events (Agent.train_gv_step a).1 with h | h
    · exact Or.inl h
    · exact Or.inr ⟨_, h⟩
  · exact train_callback_events_shape _

/-- Claim C1: on a `train()` call of an agent whose optimizer is a
`PolicyOptimizer`, the timestep of `global_vars` is set to the optimizer's
`num_steps_sampled`, the resulting mapping is pushed to the optimizer's
local evaluator and to each of its remote evaluators, and each of these
pushes happens exactly once in the iteration's effect trace. -/
theorem train_pushes_global_vars (a : AgentState) (opt : Optimizer)
    (hopt : a.optimizer = some opt) (hpo : opt.isPolicyOptimizer = true) :
    (Agent.train a).1.global_vars = ⟨opt.num_steps_sampled⟩
    ∧ (∃ opt', (Agent.train a).1.optimizer = some opt'
        ∧ opt'.local_evaluator.global_vars = ⟨opt.num_steps_sampled⟩
        ∧ opt'.remote_evaluators.length = opt.remote_evaluators.length
        ∧ ∀ ev ∈ opt'.remote_evaluators,
            ev.global_vars = ⟨opt.num_steps_sampled⟩)
    ∧ (Agent.train a).2.2.count
        (Event.setGlobalVarsLocal ⟨opt.num_steps_sampled⟩) = 1
    ∧ (∀ i, i < opt.remote_evaluators.length →
        (Agent.train a).2.2.count
          (Event.setGlobalVarsRemote i ⟨opt.num_steps_sampled⟩) = 1) := by
  obtain ⟨hg, ho⟩ := train_state_opt a opt hopt hpo
  obtain ⟨s2evs, cbevs, htr, hs2, hcb⟩ := train_trace_opt a opt hopt hpo
  refine ⟨hg, ⟨_, ho, ?_, ?_, ?_⟩, ?_, ?_⟩
  · simp [Evaluator.set_global_vars]
  · simp
  · intro ev hev
    simp only [List.mem_map] at hev
    obtain ⟨ev0, _, hev0⟩ := hev
    rw [← hev0]
    simp [Evaluator.set_global_vars]
  · rw [htr]
    have h1 : Event.setGlobalVarsLocal ⟨opt.num_steps_sampled⟩
        ∉ (List.range opt.remote_evaluators.length).map
          (fun i => Event.setGlobalVarsRemote i ⟨opt.num_steps_sampled⟩) := by
      simp
    rcases hs2 with h2 | ⟨b, h2⟩ <;> rcases hcb with h3 | h3 <;>
      simp [h2, h3, List.count_append, List.count_cons,
        List.count_eq_zero.mpr h1]
  · intro i hlt
    rw [htr]
    have hmem : Event.setGlobalVarsRemote i ⟨opt.num_steps_sampled⟩
        ∈ (List.range opt.remote_evaluators.length).map
          (fun j => Event.setGlobalVarsRemote j ⟨opt.num_steps_sampled⟩) :=
      List.mem_map.mpr ⟨i, List.mem_range.mpr hlt, rfl⟩
    have hnd : ((List.range opt.remote_evaluators.length).map
        (fun j => Event.setGlobalVarsRemote j ⟨opt.num_steps_sampled⟩)).Nodup := by
      refine List.Nodup.map ?_ (List.nodup_range _)
      intro x y hxy
      simpa using hxy
    have hcount := List.count_eq_one_of_mem hnd hmem
    rcases hs2 with h2 | ⟨b, h2⟩ <;> rcases hcb with h3 | h3 <;>
      simp [h2, h3, List.count_append, List.count_cons, hcount]

/-- Witness for C1 at a concrete agent with one remote evaluator. -/
theorem train_pushes_global_vars_witness :
    (Agent.train cexAgentOpt).1.global_vars = ⟨cexOptimizer.num_steps_sampled⟩
    ∧ (∃ opt', (Agent.train cexAgentOpt).1.optimizer = some opt'
        ∧ opt'.local_evaluator.global_vars = ⟨cexOptimizer.num_steps_sampled⟩
        ∧ opt'.remote_evaluators.length
            = cexOptimizer.remote_evaluators.length
        ∧ ∀ ev ∈ opt'.remote_evaluators,
            ev.global_vars = ⟨cexOptimizer.num_steps_sampled⟩)
    ∧ (Agent.train cexAgentOpt).2.2.count
        (Event.setGlobalVarsLocal ⟨cexOptimizer.num_steps_sampled⟩) = 1
    ∧ (∀ i, i < cexOptimizer.remote_evaluators.length →
        (Agent.train cexAgentOpt).2.2.count
          (Event.setGlobalVarsRemote i ⟨cexOptimizer.num_steps_sampled⟩) = 1) :=
  train_pushes_global_vars cexAgentOpt cexOptimizer rfl rfl

theorem before_mid_of_sync {α : Type} (X Y : List α) (mid : α) (P : α → Bool)
    (hX : ∀ x ∈ X, P x = true) (hY : ∀ y ∈ Y, P y = false)
    (hmid : P mid = false) (i j : Nat) (x : α)
    (hx : (X ++ mid :: Y)[i]? = some x) (hpx : P x = true)
    (ht : (X ++ mid :: Y)[j]? = some mid) : i < j := by
  have hiX : i < X.length := by
    by_contra hc
    push_neg at hc
    rw [List.getElem?_append_right hc] at hx
    have hxm : x ∈ mid :: Y := List.getElem?_mem hx
    rcases List.mem_cons.mp hxm with h1 | h1
    · rw [h1, hmid] at hpx
      cases hpx
    · rw [hY x h1] at hpx
      cases hpx
  have hjX : X.length ≤ j := by
    by_contra hc
    push_neg at hc
    rw [List.getElem?_append, if_pos hc] at ht
    have hm : mid ∈ X := List.getElem?_mem ht
    have := hX mid hm
    rw [hmid] at this
    cases this
  omega

theorem train_trace_decomp (a : AgentState) :
    ∃ X Y, (Agent.train a).2.2 = X ++ Event.trainableTrain :: Y
      ∧ (∀ x ∈ X, isSyncEvent x = true)
      ∧ (∀ y ∈ Y, isSyncEvent y = false) := by
  refine ⟨(Agent.train_gv_step a).2
      ++ (Agent.train_filter_step (Agent.train_gv_step a).1).2,
    Agent.train_callback_events
      (Trainable.train (Agent.train_filter_step (Agent.train_gv_step a).1).1).2,
    ?_, ?_, ?_⟩
  · unfold Agent.train
    simp [List.append_assoc]
  · intro x hx
    rcases List.mem_append.mp hx with h | h
    · exact train_gv_step_events_sync a x h
    · rcases train_filter_step_events (Agent.train_gv_step a).1 with he | he
      · rw [he] at h
        simp at h
      · rw [he] at h
        simp at h
        rw [h]
        rfl
  · intro y hy
    rcases train_callback_events_shape
        (Trainable.train (Agent.train_filter_step (Agent.train_gv_step a).1).1).2
      with he | he
    · rw [he] at hy
      simp at hy
    · rw [he] at hy
      simp at hy
      rw [hy]
      rfl

/-- Claim C2: within a single `Agent.train()` call, every global-vars push
and every filter-synchronization effect occurs strictly before the
delegated `Trainable.train` step in the trace of issued effects. -/
theorem train_sync_precedes_delegated_step (a : AgentState) (i j : Nat)
    (x : Event) (hx : ((Agent.train a).2.2)[i]? = some x)
    (hsx : isSyncEvent x = true)
    (ht : ((Agent.train a).2.2)[j]? = some Event.trainableTrain) :
    i < j := by
  obtain ⟨X, Y, hd, hX, hY⟩ := train_trace_decomp a
  rw [hd] at hx ht
  exact before_mid_of_sync X Y Event.trainableTrain isSyncEvent hX hY rfl
    i j x hx hsx ht

/-- Witness for C2: in the concrete agent's trace the first global-vars
push (index 0) precedes the delegated training step (index 2). -/
theorem train_sync_precedes_delegated_step_witness :
    ((Agent.train cexAgentOpt).2.2)[0]?
        = some (Event.setGlobalVarsLocal ⟨42⟩)
    ∧ isSyncEvent (Event.setGlobalVarsLocal ⟨42⟩) = true
    ∧ ((Agent.train cexAgentOpt).2.2)[2]? = some Event.trainableTrain
    ∧ 0 < 2 :=
  ⟨rfl, rfl, rfl,
   train_sync_precedes_delegated_step cexAgentOpt 0 2
     (Event.setGlobalVarsLocal ⟨42⟩) rfl rfl rfl⟩

/-- Claim C6: restoring the mapping produced by `__getstate__` via
`__setstate__` reproduces the saved state: the local evaluator and the
optimizer come back with their saved state, and the saved evaluator state
is propagated to every remote evaluator. -/
theorem getstate_setstate_roundtrip (a : AgentState) (e : Evaluator)
    (o : Optimizer) (he : a.local_evaluator = some e)
    (ho : a.optimizer = some o) (hs : o.hasSave = true) :
    (Agent.setstate a (Agent.getstate a)).local_evaluator = some e
    ∧ (Agent.setstate a (Agent.getstate a)).optimizer = some o
    ∧ (Agent.setstate a (Agent.getstate a)).remote_evaluators
        = a.remote_evaluators.map (fun r => r.restore e.save)
    ∧ ∀ r ∈ (Agent.setstate a (Agent.getstate a)).remote_evaluators,
        r.filters = e.filters ∧ r.weights = e.weights := by
  have hmain : Agent.setstate a (Agent.getstate a)
      = { a with
          local_evaluator := some e,
          remote_evaluators :=
            a.remote_evaluators.map (fun r => r.restore e.save),
          optimizer := some o } := by
    unfold Agent.setstate Agent.getstate
    rw [he, ho]
    simp [hs, evaluator_restore_save, optimizer_restore_save]
  refine ⟨by rw [hmain], by rw [hmain], by rw [hmain], ?_⟩
  rw [hmain]
  intro r hr
  simp only [List.mem_map] at hr
  obtain ⟨r0, _, hr0⟩ := hr
  rw [← hr0]
  constructor <;> rfl

/-- Witness for C6 at the concrete agent with optimizer. -/
theorem getstate_setstate_roundtrip_witness :
    (Agent.setstate cexAgentOpt (Agent.getstate cexAgentOpt)).local_evaluator
        = some cexEvaluator
    ∧ (Agent.setstate cexAgentOpt (Agent.getstate cexAgentOpt)).optimizer
        = some cexOptimizer
    ∧ (Agent.setstate cexAgentOpt (Agent.getstate cexAgentOpt)).remote_evaluators
        = cexAgentOpt.remote_evaluators.map
            (fun r => r.restore cexEvaluator.save)
    ∧ ∀ r ∈ (Agent.setstate cexAgentOpt (Agent.getstate cexAgentOpt)).remote_evaluators,
        r.filters = cexEvaluator.filters ∧ r.weights = cexEvaluator.weights :=
  getstate_setstate_roundtrip cexAgentOpt cexEvaluator cexOptimizer rfl rfl rfl

/-- Claim C7: `Agent._save` writes the pickled `__getstate__` mapping to
the file `checkpoint-<iteration>` inside the given directory and returns
that path; in the ordinary case (non-empty directory without a trailing
separator) the returned path is literally
`<dir>/checkpoint-<iteration>`. -/
theorem save_writes_checkpoint (a : AgentState) (checkpoint_dir : String) :
    (Agent._save a checkpoint_dir).1
      = pathJoin checkpoint_dir
          ("checkpoint-" ++ toString (Agent.iteration a))
    ∧ (Agent._save a checkpoint_dir).2
      = [((Agent._save a checkpoint_dir).1, Agent.getstate a)]
    ∧ (checkpoint_dir ≠ "" →
        checkpoint_dir.data.getLast? ≠ some '/' →
        (Agent._save a checkpoint_dir).1
          = checkpoint_dir ++ "/"
              ++ ("checkpoint-" ++ toString (Agent.iteration a))) := by
  refine ⟨rfl, rfl, ?_⟩
  intro h1 h2
  have hhead : ("checkpoint-" ++ toString (Agent.iteration a)).data.head?
      = some 'c' := by
    rw [String.data_append]
    rfl
  unfold Agent._save pathJoin
  simp [hhead, h1, h2]

/-- Witness for C7 at the concrete agent (iteration 0) and a concrete
directory. -/
theorem save_writes_checkpoint_witness :
    ("/tmp/ck" ≠ "")
    ∧ ("/tmp/ck".data.getLast? ≠ some '/')
    ∧ (Agent._save cexAgent "/tmp/ck").1
        = "/tmp/ck" ++ "/" ++ ("checkpoint-" ++ toString (Agent.iteration cexAgent)) :=
  ⟨by decide, by decide,
   (save_writes_checkpoint cexAgent "/tmp/ck").2.2 (by decide) (by decide)⟩

/-- Claim C8 counterexample: with the RNN state `some []` — not `None`,
but an empty list — `compute_action` returns only the computed action,
because the code tests Python truthiness (`if state:`) rather than
`state is not None`; the claim requires the full triple for every
non-`None` state. -/
theorem compute_action_empty_state_counterexample :
    (some ([] : List Int)).isSome = true
    ∧ Agent.compute_action cexAgent 3 (some []) "default"
        = .ok (CAResult.singleAction 4, cexAgent)
    ∧ ∀ act st lg a', Agent.compute_action cexAgent 3 (some []) "default"
        ≠ .ok (CAResult.fullResult act st lg, a') := by
  refine ⟨rfl, rfl, ?_⟩
  intro act st lg a' h
  rw [show Agent.compute_action cexAgent 3 (some []) "default"
      = .ok (CAResult.singleAction 4, cexAgent) from rfl] at h
  simp at h

/-- Claim C8 (amended): `compute_action` takes an observation, an optional
RNN state and a policy id; when the state is a non-empty list it returns
the policy's full `compute_single_action` result (computed action, RNN
state, logits dictionary), and when the state is `None` or the empty list
it returns only the computed action (element 0 of that result). -/
theorem compute_action_result_shape (a : AgentState) (le : Evaluator)
    (obs : Int) (state : Option (List Int)) (pid : String)
    (pre : Int → Int) (f : Filter) (p : Policy)
    (hle : a.local_evaluator = some le)
    (hpre : alookup le.preprocessors pid = some pre)
    (hf : alookup le.filters pid = some f)
    (hp : alookup le.policies pid = some p) :
    (state = none ∨ state = some [] →
      Agent.compute_action a obs state pid
        = .ok (CAResult.singleAction
            (p.compute_single_action (applyFilter f (pre obs) false).1 []).1,
          { a with
            local_evaluator := some { le with
              filters :=
                asetKey le.filters pid (applyFilter f (pre obs) false).2 } }))
    ∧ (∀ y ys, state = some (y :: ys) →
      Agent.compute_action a obs state pid
        = .ok (CAResult.fullResult
            (p.compute_single_action (applyFilter f (pre obs) false).1
              (y :: ys)).1
            (p.compute_single_action (applyFilter f (pre obs) false).1
              (y :: ys)).2.1
            (p.compute_single_action (applyFilter f (pre obs) false).1
              (y :: ys)).2.2,
          { a with
            local_evaluator := some { le with
              filters :=
                asetKey le.filters pid (applyFilter f (pre obs) false).2 } })) := by
  constructor
  · rintro (hst | hst) <;>
      (subst hst
       unfold Agent.compute_action
       rw [hle]
       simp [hpre, hf, hp])
  · intro y ys hst
    subst hst
    unfold Agent.compute_action
    rw [hle]
    simp [hpre, hf, hp]

/-- Witness for the amended C8: a non-empty RNN state returns the full
(action, state, logits) triple of the concrete policy. -/
theorem compute_action_result_shape_witness :
    Agent.compute_action cexAgent 3 (some [5]) "default"
      = .ok (CAResult.fullResult 4 [0, 5] [("p", 3)], cexAgent) :=
  (compute_action_result_shape cexAgent cexEvaluator 3 (some [5]) "default"
    (fun x => x) cexFilter cexPolicy rfl rfl rfl rfl).2 5 [] rfl

/-- Claim C9: `compute_action` applies the observation filter with
`update=False`, so the local evaluator's filter statistics after the call
equal those before it. -/
theorem compute_action_preserves_filters (a : AgentState) (obs : Int)
    (state : Option (List Int)) (pid : String) (r : CAResult)
    (a' : AgentState)
    (h : Agent.compute_action a obs state pid = .ok (r, a')) :
    a'.local_evaluator.map Evaluator.filters
      = a.local_evaluator.map Evaluator.filters := by
  unfold Agent.compute_action at h
  rcases hle : a.local_evaluator with _ | le <;> rw [hle] at h
  · simp at h
  · simp only [] at h
    rcases hpre : alookup le.preprocessors pid with _ | pre <;> rw [hpre] at h
    · simp at h
    · simp only [] at h
      rcases hf : alookup le.filters pid with _ | f <;> rw [hf] at h
      · simp at h
      · simp only [] at h
        rcases hp : alookup le.policies pid with _ | p <;> rw [hp] at h
        · simp at h
        · simp only [] at h
          split at h <;>
            (simp only [Except.ok.injEq, Prod.mk.injEq] at h
             obtain ⟨_, ha⟩ := h
             subst ha
             simp only [Option.map_some, Option.some.injEq]
             have hfr : (applyFilter f (pre obs) false).2 = f := by
               simp [applyFilter]
             rw [hfr, asetKey_alookup_self le.filters pid f hf])

/-- Witness for C9: at the concrete agent the filter state is unchanged by
a successful `compute_action` call. -/
theorem compute_action_preserves_filters_witness :
    Agent.compute_action cexAgent 3 none "default"
      = .ok (CAResult.singleAction 4, cexAgent)
    ∧ cexAgent.local_evaluator.map Evaluator.filters
        = cexAgent.local_evaluator.map Evaluator.filters :=
  ⟨rfl, compute_action_preserves_filters cexAgent 3 none "default"
    (CAResult.singleAction 4) cexAgent rfl⟩

end RLlibAgent
